import Mathlib

/-!
# Verification of the controlled workload runner (sample.py)

Shallow embedding of the process-lifecycle and deadline-coordination core of
the stress-test runner. Wall-clock time is modelled as abstract `Nat` ticks.
Each successive call the Python code makes to the wall clock is modelled by
consuming one element of an explicit list of clock readings; a run whose
clock list is exhausted before the loop exits is a run we cannot observe to
terminate, and is returned as `none`. Faults that the numeric backend may
raise are modelled by explicit fault oracles; every print statement of the
source becomes an explicit event in an output trace.
-/

namespace WorkloadRunner

/-- Observable events of the CPU worker (cpu_worker_loop in sample.py):
allocation of the two random matrices, the single warmup multiply, each
deadline comparison against the wall clock, each counted multiply with its
in-place perturbation of the input, the exception print of the except
clause, and the final report print of the finally clause. -/
inductive CpuEvent where
  | allocA (size : Nat)
  | allocB (size : Nat)
  | warmupMul
  | deadlineCompare (now : Nat)
  | countedMul
  | perturbA
  | exceptionPrint (worker_id : Nat)
  | finishedPrint (worker_id : Nat) (iterations : Nat)
deriving DecidableEq, Repr

/-- The while loop of cpu_worker_loop: while time.time() < stop_time, do one
multiply, perturb the input, and increment iter_count; a numerical or memory
fault at iteration index iter_count (modelled by the oracle fault) is caught
by the except clause, which prints the exception, and the finally clause then
prints the final report with the count accumulated so far. Each loop-guard
evaluation consumes one clock reading; an exhausted clock list means the loop
was still running past the horizon we can observe, returned as none. The
result pairs the event trace with the iteration count the final report
prints. -/
def cpuLoop (stop_time worker_id : Nat) (fault : Nat → Bool) (iter_count : Nat) :
    List Nat → Option (List CpuEvent × Nat)
  | [] => none
  | t :: rest =>
      if t < stop_time then
        if fault iter_count then
          some ([CpuEvent.deadlineCompare t, CpuEvent.exceptionPrint worker_id,
                 CpuEvent.finishedPrint worker_id iter_count], iter_count)
        else
          (cpuLoop stop_time worker_id fault (iter_count + 1) rest).map
            (fun p => (CpuEvent.deadlineCompare t :: CpuEvent.countedMul ::
                       CpuEvent.perturbA :: p.1, p.2))
      else
        some ([CpuEvent.deadlineCompare t,
               CpuEvent.finishedPrint worker_id iter_count], iter_count)

/-- cpu_worker_loop(matrix_size, stop_time, worker_id) from sample.py: allocate
the two random matrices a and b, perform one uncounted warmup multiply, set
iter_count to 0, then run the deadline-guarded loop. The clock list holds the
successive readings time.time() returns; fault is the numeric-fault oracle. -/
def cpu_worker_loop (matrix_size stop_time worker_id : Nat) (fault : Nat → Bool)
    (clock : List Nat) : Option (List CpuEvent × Nat) :=
  (cpuLoop stop_time worker_id fault 0 clock).map
    (fun p => (CpuEvent.allocA matrix_size :: CpuEvent.allocB matrix_size ::
               CpuEvent.warmupMul :: p.1, p.2))

theorem cpuLoop_spec (stop_time worker_id : Nat) (fault : Nat → Bool) :
    ∀ (clock : List Nat) (iter_count : Nat) (evs : List CpuEvent) (n : Nat),
      cpuLoop stop_time worker_id fault iter_count clock = some (evs, n) →
      n = iter_count + evs.countP (· == CpuEvent.countedMul) ∧
      CpuEvent.warmupMul ∉ evs ∧
      ∃ t rest, evs = CpuEvent.deadlineCompare t :: rest := by
  intro clock
  induction clock with
  | nil => intro k evs n h; simp [cpuLoop] at h
  | cons t rest ih =>
      intro k evs n h
      simp only [cpuLoop] at h
      by_cases ht : t < stop_time
      · rw [if_pos ht] at h
        by_cases hf : fault k
        · rw [if_pos hf] at h
          simp only [Option.some.injEq, Prod.mk.injEq] at h
          obtain ⟨hevs, hn⟩ := h
          subst hevs; subst hn
          exact ⟨by simp [List.countP_cons, List.countP_nil], by simp, t, _, rfl⟩
        · rw [if_neg hf, Option.map_eq_some'] at h
          obtain ⟨⟨evs', n'⟩, hr, hfa⟩ := h
          simp only [Prod.mk.injEq] at hfa
          obtain ⟨hevs, hn⟩ := hfa
          obtain ⟨hcount, hwm, -⟩ := ih (k + 1) evs' n' hr
          subst hevs; subst hn
          refine ⟨?_, by simp [hwm], t, _, rfl⟩
          simp only [List.countP_cons]
          simp only [hcount]
          simp
          omega
      · rw [if_neg ht] at h
        simp only [Option.some.injEq, Prod.mk.injEq] at h
        obtain ⟨hevs, hn⟩ := h
        subst hevs; subst hn
        exact ⟨by simp [List.countP_cons, List.countP_nil], by simp, t, _, rfl⟩

/-- C1: for every matrix size and worker id, when cpu_worker_loop is invoked
with a stop_time already in the past at the first loop check (first clock
reading t with stop_time ≤ t), it performs zero counted iterations, terminates
after that single check (the result is defined using only the first reading,
for any fault oracle and any further readings), and its trace ends with the
final report print carrying iteration count 0. -/
theorem cpu_worker_past_deadline_zero_iterations
    (matrix_size stop_time worker_id : Nat) (fault : Nat → Bool)
    (t : Nat) (rest : List Nat) (h : stop_time ≤ t) :
    cpu_worker_loop matrix_size stop_time worker_id fault (t :: rest) =
      some ([CpuEvent.allocA matrix_size, CpuEvent.allocB matrix_size,
             CpuEvent.warmupMul, CpuEvent.deadlineCompare t,
             CpuEvent.finishedPrint worker_id 0], 0) := by
  simp only [cpu_worker_loop, cpuLoop]
  rw [if_neg (Nat.not_lt.mpr h)]
  rfl

/-- Witness for C1 at matrix_size 3, stop_time 5, worker 0, first reading 7. -/
theorem cpu_worker_past_deadline_zero_iterations_witness :
    5 ≤ 7 ∧
    cpu_worker_loop 3 5 0 (fun _ => false) [7] =
      some ([CpuEvent.allocA 3, CpuEvent.allocB 3, CpuEvent.warmupMul,
             CpuEvent.deadlineCompare 7, CpuEvent.finishedPrint 0 0], 0) :=
  ⟨by decide,
   cpu_worker_past_deadline_zero_iterations 3 5 0 (fun _ => false) 7 [] (by decide)⟩

/-- C9: every terminating run of cpu_worker_loop allocates both matrices and
performs the single warmup multiply strictly before the first deadline
comparison, the warmup multiply occurs nowhere later in the trace, and the
reported iteration count is exactly the number of counted multiplies after the
warmup — the warmup work is excluded from the count. -/
theorem cpu_worker_warmup_uncounted
    (matrix_size stop_time worker_id : Nat) (fault : Nat → Bool) (clock : List Nat)
    (evs : List CpuEvent) (n : Nat)
    (h : cpu_worker_loop matrix_size stop_time worker_id fault clock = some (evs, n)) :
    ∃ t rest, evs = CpuEvent.allocA matrix_size :: CpuEvent.allocB matrix_size ::
        CpuEvent.warmupMul :: CpuEvent.deadlineCompare t :: rest ∧
      CpuEvent.warmupMul ∉ CpuEvent.deadlineCompare t :: rest ∧
      n = (CpuEvent.deadlineCompare t :: rest).countP (· == CpuEvent.countedMul) := by
  rw [cpu_worker_loop, Option.map_eq_some'] at h
  obtain ⟨⟨evs', n'⟩, hr, hfa⟩ := h
  simp only [Prod.mk.injEq] at hfa
  obtain ⟨hevs, hn⟩ := hfa
  obtain ⟨hcount, hwm, t, rest', hd⟩ := cpuLoop_spec stop_time worker_id fault clock 0 evs' n' hr
  subst hevs; subst hn; subst hd
  exact ⟨t, rest', rfl, hwm, by simpa using hcount⟩

/-- Witness for C9 on a run with one counted iteration (readings 0 then 10
against stop_time 5). -/
theorem cpu_worker_warmup_uncounted_witness :
    ∃ t rest,
      [CpuEvent.allocA 2, CpuEvent.allocB 2, CpuEvent.warmupMul,
       CpuEvent.deadlineCompare 0, CpuEvent.countedMul, CpuEvent.perturbA,
       CpuEvent.deadlineCompare 10, CpuEvent.finishedPrint 1 1] =
        CpuEvent.allocA 2 :: CpuEvent.allocB 2 ::
          CpuEvent.warmupMul :: CpuEvent.deadlineCompare t :: rest ∧
      CpuEvent.warmupMul ∉ CpuEvent.deadlineCompare t :: rest ∧
      1 = (CpuEvent.deadlineCompare t :: rest).countP (· == CpuEvent.countedMul) :=
  cpu_worker_warmup_uncounted 2 5 1 (fun _ => false) [0, 10]
    [CpuEvent.allocA 2, CpuEvent.allocB 2, CpuEvent.warmupMul,
     CpuEvent.deadlineCompare 0, CpuEvent.countedMul, CpuEvent.perturbA,
     CpuEvent.deadlineCompare 10, CpuEvent.finishedPrint 1 1] 1 (by decide)

/-- Observable events of the GPU worker (gpu_worker_loop in sample.py): the
skip print taken when PyTorch is unavailable, device selection together with
the two tensor allocations, the warmup multiply with its synchronize, each
deadline comparison, each counted multiply (with its in-place add), the
periodic synchronize taken when iter_count is a multiple of 10, the exception
print, and the final report print of the finally clause. -/
inductive GpuEvent where
  | skipNoTorch (worker_id : Nat)
  | deviceSetup (device_index : Nat)
  | warmupMul
  | deadlineCompare (now : Nat)
  | countedMul
  | periodicSync
  | exceptionPrint (worker_id : Nat)
  | finishedPrint (worker_id : Nat) (iterations : Nat)
deriving DecidableEq, Repr

/-- The while loop of gpu_worker_loop: while time.time() < stop_time, multiply,
perturb, increment iter_count, and synchronize whenever the incremented count
is divisible by 10. A CUDA fault at iteration index iter_count is caught by
the except clause and the finally clause prints the count accumulated so far
(iter_count is bound here, so the locals() guard yields it unchanged). -/
def gpuLoop (stop_time worker_id : Nat) (fault : Nat → Bool) (iter_count : Nat) :
    List Nat → Option (List GpuEvent × Nat)
  | [] => none
  | t :: rest =>
      if t < stop_time then
        if fault iter_count then
          some ([GpuEvent.deadlineCompare t, GpuEvent.exceptionPrint worker_id,
                 GpuEvent.finishedPrint worker_id iter_count], iter_count)
        else
          (gpuLoop stop_time worker_id fault (iter_count + 1) rest).map
            (fun p => (GpuEvent.deadlineCompare t :: GpuEvent.countedMul ::
                       (if (iter_count + 1) % 10 = 0 then
                          GpuEvent.periodicSync :: p.1 else p.1), p.2))
      else
        some ([GpuEvent.deadlineCompare t,
               GpuEvent.finishedPrint worker_id iter_count], iter_count)

/-- gpu_worker_loop(matrix_size, stop_time, device_index, worker_id) from
sample.py. hasTorch models whether the torch import at module load succeeded:
when it failed the function prints the skip message and returns without
entering the try block, so no finished report is printed. setupFault models a
fault in the setup code before iter_count is bound (torch.device, the two
tensor allocations, the warmup multiply, or its synchronize): the except
clause prints the exception and the finally clause, finding iter_count
unbound in locals(), prints a final report with count 0. Otherwise the
deadline-guarded loop runs. The second result component is the count the
final report prints, when one is printed. -/
def gpu_worker_loop (hasTorch setupFault : Bool) (fault : Nat → Bool)
    (matrix_size stop_time device_index worker_id : Nat) (clock : List Nat) :
    Option (List GpuEvent × Option Nat) :=
  if !hasTorch then
    some ([GpuEvent.skipNoTorch worker_id], none)
  else if setupFault then
    some ([GpuEvent.deviceSetup device_index, GpuEvent.exceptionPrint worker_id,
           GpuEvent.finishedPrint worker_id 0], some 0)
  else
    (gpuLoop stop_time worker_id fault 0 clock).map
      (fun p => (GpuEvent.deviceSetup device_index :: GpuEvent.warmupMul :: p.1,
                 some p.2))

/-- Helper: recognise the final report print in a GPU trace. -/
def isGpuFinished : GpuEvent → Bool
  | GpuEvent.finishedPrint _ _ => true
  | _ => false

theorem gpuLoop_one_finished (stop_time worker_id : Nat) (fault : Nat → Bool) :
    ∀ (clock : List Nat) (iter_count : Nat) (evs : List GpuEvent) (n : Nat),
      gpuLoop stop_time worker_id fault iter_count clock = some (evs, n) →
      evs.countP isGpuFinished = 1 ∧ GpuEvent.finishedPrint worker_id n ∈ evs := by
  intro clock
  induction clock with
  | nil => intro k evs n h; simp [gpuLoop] at h
  | cons t rest ih =>
      intro k evs n h
      simp only [gpuLoop] at h
      by_cases ht : t < stop_time
      · rw [if_pos ht] at h
        by_cases hf : fault k
        · rw [if_pos hf] at h
          simp only [Option.some.injEq, Prod.mk.injEq] at h
          obtain ⟨hevs, hn⟩ := h
          subst hevs; subst hn
          exact ⟨by simp [List.countP_cons, List.countP_nil, isGpuFinished], by simp⟩
        · rw [if_neg hf, Option.map_eq_some'] at h
          obtain ⟨⟨evs', n'⟩, hr, hfa⟩ := h
          simp only [Prod.mk.injEq] at hfa
          obtain ⟨hevs, hn⟩ := hfa
          obtain ⟨hcount, hmem⟩ := ih (k + 1) evs' n' hr
          subst hevs; subst hn
          by_cases hs : (k + 1) % 10 = 0
          · rw [if_pos hs]
            constructor
            · simp [List.countP_cons, isGpuFinished, hcount]
            · simp [hmem]
          · rw [if_neg hs]
            constructor
            · simp [List.countP_cons, isGpuFinished, hcount]
            · simp [hmem]
      · rw [if_neg ht] at h
        simp only [Option.some.injEq, Prod.mk.injEq] at h
        obtain ⟨hevs, hn⟩ := h
        subst hevs; subst hn
        exact ⟨by simp [List.countP_cons, List.countP_nil, isGpuFinished], by simp⟩

/-- C8: when the torch import succeeded, every run of gpu_worker_loop that
returns (for every setup-fault flag, loop-fault oracle, and clock) produces a
trace with exactly one final report print; and when a fault occurs before the
first loop iteration completes — modelled by setupFault, covering device
selection, tensor allocation, warmup, and its synchronize — the reported count
is 0, via the locals() guard on whether iter_count was ever bound. No trace
contains an uncaught-exception escape: the embedding returns a trace on every
fault path, mirroring the except/finally structure of the source. -/
theorem gpu_worker_reports_once
    (setupFault : Bool) (fault : Nat → Bool)
    (matrix_size stop_time device_index worker_id : Nat) (clock : List Nat)
    (evs : List GpuEvent) (r : Option Nat)
    (h : gpu_worker_loop true setupFault fault matrix_size stop_time device_index
           worker_id clock = some (evs, r)) :
    evs.countP isGpuFinished = 1 ∧
    (setupFault = true →
      evs = [GpuEvent.deviceSetup device_index, GpuEvent.exceptionPrint worker_id,
             GpuEvent.finishedPrint worker_id 0] ∧ r = some 0) := by
  simp only [gpu_worker_loop] at h
  rw [if_neg (by decide : ¬((!true) = true))] at h
  by_cases hs : setupFault = true
  · rw [if_pos hs] at h
    simp only [Option.some.injEq, Prod.mk.injEq] at h
    obtain ⟨hevs, hr⟩ := h
    subst hevs; subst hr
    exact ⟨by simp [List.countP_cons, List.countP_nil, isGpuFinished],
           fun _ => ⟨rfl, rfl⟩⟩
  · rw [if_neg hs, Option.map_eq_some'] at h
    obtain ⟨⟨evs', n'⟩, hr, hfa⟩ := h
    simp only [Prod.mk.injEq] at hfa
    obtain ⟨hevs, hrr⟩ := hfa
    obtain ⟨hcount, -⟩ := gpuLoop_one_finished stop_time worker_id fault clock 0 evs' n' hr
    subst hevs
    exact ⟨by simp [List.countP_cons, isGpuFinished, hcount],
           fun hc => absurd hc hs⟩

/-- Witness for C8: a setup fault on device 2 for worker 2 reports count 0. -/
theorem gpu_worker_reports_once_witness :
    ([GpuEvent.deviceSetup 2, GpuEvent.exceptionPrint 2,
      GpuEvent.finishedPrint 2 0] : List GpuEvent).countP isGpuFinished = 1 ∧
    (true = true →
      [GpuEvent.deviceSetup 2, GpuEvent.exceptionPrint 2,
       GpuEvent.finishedPrint 2 0] =
        [GpuEvent.deviceSetup 2, GpuEvent.exceptionPrint 2,
         GpuEvent.finishedPrint 2 0] ∧ (some 0 : Option Nat) = some 0) :=
  gpu_worker_reports_once true (fun _ => false) 4096 5 2 2 []
    [GpuEvent.deviceSetup 2, GpuEvent.exceptionPrint 2,
     GpuEvent.finishedPrint 2 0] (some 0) (by decide)

/-- Observable events of the monitor (monitor_loop in sample.py): on each tick
either a timestamped metrics line (psutil present) or the timestamped
degraded line "psutil not available - no system metrics.", followed by the
unconditional time.sleep(interval). The timestamp is the wall-clock reading
current at the tick. -/
inductive MonitorEvent where
  | metricsLine (now : Nat)
  | degradedLine (now : Nat)
  | sleepFor (interval : Nat)
deriving DecidableEq, Repr

/-- The while loop of monitor_loop: while time.time() < end_time, print one
line — a metrics line when psutil imported, the degraded line otherwise — then
sleep the full interval (time.sleep(interval) runs unconditionally; nothing
shortens the final sleep). Each loop-guard evaluation consumes one clock
reading. The result pairs the event trace with the reading at which the guard
failed, i.e. the time at which the loop exits. -/
def monitorTicks (psutilAvail : Bool) (end_time interval : Nat) :
    List Nat → Option (List MonitorEvent × Nat)
  | [] => none
  | t :: rest =>
      if t < end_time then
        (monitorTicks psutilAvail end_time interval rest).map
          (fun p => ((if psutilAvail then MonitorEvent.metricsLine t
                      else MonitorEvent.degradedLine t) ::
                     MonitorEvent.sleepFor interval :: p.1, p.2))
      else
        some ([], t)

/-- monitor_loop(duration, interval) from sample.py: end_time is computed once
as time.time() + duration — a fresh clock reading taken inside the monitor
process at its own start, not the supervisor's stop_time — then the tick loop
runs against that end_time. The first element of the clock list is the
reading used to form end_time; the rest are the loop-guard readings. -/
def monitor_loop (psutilAvail : Bool) (duration interval : Nat) :
    List Nat → Option (List MonitorEvent × Nat)
  | [] => none
  | t0 :: rest => monitorTicks psutilAvail (t0 + duration) interval rest

/-- C4 (code bug): the monitored trace for duration 5, interval 2, with a
zero-jitter clock — the monitor starts at time 0, ticks at 0, 2 and 4, and
each sleep advances the clock by exactly the interval — exits at time 6,
strictly later than start + duration = 5. The source's own comment on the
sleep says "sleep but exit early if time's up", but time.sleep(interval) runs
in full after the last tick, so the exit overshoots the configured duration
by up to one interval. -/
theorem monitor_overshoots_duration :
    monitor_loop true 5 2 [0, 0, 2, 4, 6] =
      some ([MonitorEvent.metricsLine 0, MonitorEvent.sleepFor 2,
             MonitorEvent.metricsLine 2, MonitorEvent.sleepFor 2,
             MonitorEvent.metricsLine 4, MonitorEvent.sleepFor 2], 6) ∧
    ¬(6 ≤ 0 + 5) := by
  exact ⟨by decide, by decide⟩

theorem monitorTicks_degraded (end_time interval : Nat) :
    ∀ (clock : List Nat) (evs : List MonitorEvent) (texit : Nat),
      monitorTicks false end_time interval clock = some (evs, texit) →
      ∀ e ∈ evs, (∃ now, e = MonitorEvent.degradedLine now ∧ now < end_time) ∨
        e = MonitorEvent.sleepFor interval := by
  intro clock
  induction clock with
  | nil => intro evs texit h; simp [monitorTicks] at h
  | cons t rest ih =>
      intro evs texit h
      simp only [monitorTicks] at h
      by_cases ht : t < end_time
      · rw [if_pos ht, Option.map_eq_some'] at h
        obtain ⟨⟨evs', t'⟩, hr, hfa⟩ := h
        simp only [Prod.mk.injEq] at hfa
        obtain ⟨hevs, -⟩ := hfa
        subst hevs
        intro e he
        simp only [if_true, List.mem_cons] at he
        rcases he with he | he | he
        · exact Or.inl ⟨t, by simp [he], ht⟩
        · exact Or.inr he
        · exact ih evs' t' hr e he
      · rw [if_neg ht] at h
        simp only [Option.some.injEq, Prod.mk.injEq] at h
        obtain ⟨hevs, -⟩ := h
        subst hevs
        intro e he
        simp at he

/-- C7: when the system-metrics capability (psutil) is unavailable, every
event of every terminating monitor run is either a timestamped degraded line
(printed on a tick, with its timestamp before end_time) or the interval
sleep — no metrics line is ever printed, and every path returns a trace: the
psutil-absent branch only prints, so the loop never raises. -/
theorem monitor_degraded_when_no_psutil
    (duration interval : Nat) (clock : List Nat)
    (evs : List MonitorEvent) (texit : Nat)
    (h : monitor_loop false duration interval clock = some (evs, texit)) :
    ∀ e ∈ evs, (∃ now, e = MonitorEvent.degradedLine now) ∨
      e = MonitorEvent.sleepFor interval := by
  cases clock with
  | nil => simp [monitor_loop] at h
  | cons t0 rest =>
      intro e he
      rcases monitorTicks_degraded (t0 + duration) interval rest evs texit h e he with
        ⟨now, hnow, -⟩ | hs
      · exact Or.inl ⟨now, hnow⟩
      · exact Or.inr hs

/-- Witness for C7: the first printed line of a two-tick degraded run with
duration 5, interval 2 is a timestamped degraded line. -/
theorem monitor_degraded_when_no_psutil_witness :
    (∃ now, MonitorEvent.degradedLine 1 = MonitorEvent.degradedLine now) ∨
      MonitorEvent.degradedLine 1 = MonitorEvent.sleepFor 2 :=
  monitor_degraded_when_no_psutil 5 2 [0, 1, 3, 5]
    [MonitorEvent.degradedLine 1, MonitorEvent.sleepFor 2,
     MonitorEvent.degradedLine 3, MonitorEvent.sleepFor 2] 5 (by decide)
    (MonitorEvent.degradedLine 1) (by decide)

/-- The run configuration parsed by parse_args in sample.py: duration,
cpu_workers, matrix_size, the gpu flag, gpu_matrix_size, monitor_interval. -/
structure RunConfig where
  duration : Nat
  cpu_workers : Nat
  matrix_size : Nat
  gpu : Bool
  gpu_matrix_size : Nat
  monitor_interval : Nat
deriving DecidableEq, Repr

/-- The argument tuple each child process is spawned with in main():
monitor_loop receives (duration, monitor_interval); cpu_worker_loop receives
(matrix_size, stop_time, worker_id); gpu_worker_loop receives
(gpu_matrix_size, stop_time, device_index, worker_id). -/
inductive ChildSpec where
  | monitorChild (duration interval : Nat)
  | cpuChild (matrix_size stop_time worker_id : Nat)
  | gpuChild (matrix_size stop_time device_index worker_id : Nat)
deriving DecidableEq, Repr

/-- The gpu-capability gate of main(): args.gpu is forced to False when torch
failed to import or when torch reports no available CUDA device, so the gpu
branch runs only when the flag was given AND both capability probes pass. -/
def effectiveGpu (cfg : RunConfig) (hasTorch cudaAvail : Bool) : Bool :=
  cfg.gpu && hasTorch && cudaAvail

/-- The spawn sequence of main(): compute stop_time = time.time() + duration
once (reading t_start), start the monitor process with (duration,
monitor_interval), then one cpu worker per index below cpu_workers with
(matrix_size, stop_time, i), then — only when the gpu gate passed — one gpu
worker per CUDA device ordinal idx below cudaCount with (gpu_matrix_size,
stop_time, idx, idx). -/
def spawnPlan (cfg : RunConfig) (hasTorch cudaAvail : Bool) (cudaCount t_start : Nat) :
    List ChildSpec :=
  ChildSpec.monitorChild cfg.duration cfg.monitor_interval ::
  ((List.range cfg.cpu_workers).map
      (fun i => ChildSpec.cpuChild cfg.matrix_size (t_start + cfg.duration) i) ++
   (if effectiveGpu cfg hasTorch cudaAvail then
      (List.range cudaCount).map
        (fun idx => ChildSpec.gpuChild cfg.gpu_matrix_size (t_start + cfg.duration) idx idx)
    else []))

/-- Helper: recognise gpu-worker child specs. -/
def isGpuChild : ChildSpec → Bool
  | ChildSpec.gpuChild _ _ _ _ => true
  | _ => false

/-- Helper: recognise cpu-worker child specs. -/
def isCpuChild : ChildSpec → Bool
  | ChildSpec.cpuChild _ _ _ => true
  | _ => false

theorem filter_map_eq_nil {α β : Type} (f : α → β) (p : β → Bool) (l : List α)
    (hall : ∀ a ∈ l, p (f a) = false) :
    (l.map f).filter p = [] := by
  induction l with
  | nil => simp
  | cons a l ih =>
      simp only [List.map_cons, List.filter_cons, hall a (by simp),
        Bool.false_eq_true, if_false]
      exact ih (fun a ha => hall a (by simp [ha]))

theorem filter_map_eq_self {α β : Type} (f : α → β) (p : β → Bool) (l : List α)
    (hall : ∀ a ∈ l, p (f a) = true) :
    (l.map f).filter p = l.map f := by
  induction l with
  | nil => simp
  | cons a l ih =>
      simp only [List.map_cons, List.filter_cons, hall a (by simp), if_true]
      rw [ih (fun a ha => hall a (by simp [ha]))]

theorem countP_map_eq_length {α β : Type} (f : α → β) (p : β → Bool) (l : List α)
    (hall : ∀ a ∈ l, p (f a) = true) :
    (l.map f).countP p = l.length := by
  induction l with
  | nil => simp
  | cons a l ih =>
      simp only [List.map_cons, List.countP_cons, hall a (by simp), if_true,
        List.length_cons]
      rw [ih (fun a ha => hall a (by simp [ha]))]

theorem countP_map_eq_zero {α β : Type} (f : α → β) (p : β → Bool) (l : List α)
    (hall : ∀ a ∈ l, p (f a) = false) :
    (l.map f).countP p = 0 := by
  induction l with
  | nil => simp
  | cons a l ih =>
      simp only [List.map_cons, List.countP_cons, hall a (by simp)]
      simp only [Bool.false_eq_true, if_false, Nat.add_zero]
      exact ih (fun a ha => hall a (by simp [ha]))

/-- C3: when the accelerator capability check fails — torch not importable or
no CUDA device available — the spawn plan contains zero gpu workers even when
the --gpu flag was given, while the monitor and exactly cpu_workers compute
workers are still spawned. -/
theorem no_gpu_workers_without_capability
    (cfg : RunConfig) (hasTorch cudaAvail : Bool) (cudaCount t_start : Nat)
    (h : hasTorch = false ∨ cudaAvail = false) :
    (spawnPlan cfg hasTorch cudaAvail cudaCount t_start).countP isGpuChild = 0 ∧
    (spawnPlan cfg hasTorch cudaAvail cudaCount t_start).countP isCpuChild =
      cfg.cpu_workers ∧
    ChildSpec.monitorChild cfg.duration cfg.monitor_interval ∈
      spawnPlan cfg hasTorch cudaAvail cudaCount t_start := by
  have hgate : effectiveGpu cfg hasTorch cudaAvail = false := by
    rcases h with h | h <;> simp [effectiveGpu, h]
  refine ⟨?_, ?_, by simp [spawnPlan]⟩
  · simp only [spawnPlan, hgate, Bool.false_eq_true, if_false, List.append_nil,
      List.countP_cons, isGpuChild, Bool.false_eq_true, if_false, Nat.add_zero]
    exact countP_map_eq_zero _ _ _ (fun a _ => rfl)
  · simp only [spawnPlan, hgate, Bool.false_eq_true, if_false, List.append_nil,
      List.countP_cons, isCpuChild, Bool.false_eq_true, if_false, Nat.add_zero]
    rw [countP_map_eq_length _ _ _ (fun a _ => rfl), List.length_range]

/-- Witness for C3: torch absent, --gpu given, 4 claimed devices, 2 cpu
workers: no gpu child is spawned. -/
theorem no_gpu_workers_without_capability_witness :
    (spawnPlan ⟨30, 2, 800, true, 4096, 2⟩ false true 4 100).countP isGpuChild = 0 ∧
    (spawnPlan ⟨30, 2, 800, true, 4096, 2⟩ false true 4 100).countP isCpuChild = 2 ∧
    ChildSpec.monitorChild 30 2 ∈ spawnPlan ⟨30, 2, 800, true, 4096, 2⟩ false true 4 100 :=
  no_gpu_workers_without_capability ⟨30, 2, 800, true, 4096, 2⟩ false true 4 100
    (Or.inl rfl)

/-- The gpu-worker specs of a spawn plan, in spawn order. -/
def gpuChildren (plan : List ChildSpec) : List ChildSpec :=
  plan.filter isGpuChild

theorem effectiveGpu_of_flag (cfg : RunConfig) (h : cfg.gpu = true) :
    effectiveGpu cfg true true = true := by
  simp [effectiveGpu, h]

/-- C10: when the --gpu flag is set and both capability probes pass, the plan
spawns exactly one gpu worker per CUDA device — the gpu-worker list is
precisely one child per device ordinal, with device_index and worker_id both
equal to the ordinal — so the gpu worker count equals cudaCount and is
unaffected by the cpu_workers configuration (no configuration field controls
it). -/
theorem one_gpu_worker_per_device
    (duration cpu_workers matrix_size gpu_matrix_size monitor_interval : Nat)
    (cudaCount t_start : Nat) :
    gpuChildren (spawnPlan ⟨duration, cpu_workers, matrix_size, true,
        gpu_matrix_size, monitor_interval⟩ true true cudaCount t_start) =
      (List.range cudaCount).map
        (fun idx => ChildSpec.gpuChild gpu_matrix_size (t_start + duration) idx idx) ∧
    (gpuChildren (spawnPlan ⟨duration, cpu_workers, matrix_size, true,
        gpu_matrix_size, monitor_interval⟩ true true cudaCount t_start)).length =
      cudaCount ∧
    ∀ other_cpu_workers : Nat,
      gpuChildren (spawnPlan ⟨duration, other_cpu_workers, matrix_size, true,
          gpu_matrix_size, monitor_interval⟩ true true cudaCount t_start) =
        gpuChildren (spawnPlan ⟨duration, cpu_workers, matrix_size, true,
            gpu_matrix_size, monitor_interval⟩ true true cudaCount t_start) := by
  have key : ∀ cw : Nat,
      gpuChildren (spawnPlan ⟨duration, cw, matrix_size, true,
          gpu_matrix_size, monitor_interval⟩ true true cudaCount t_start) =
        (List.range cudaCount).map
          (fun idx => ChildSpec.gpuChild gpu_matrix_size (t_start + duration) idx idx) := by
    intro cw
    simp only [gpuChildren, spawnPlan]
    rw [if_pos (effectiveGpu_of_flag _ rfl),
        List.filter_cons_of_neg (by simp [isGpuChild]),
        List.filter_append,
        filter_map_eq_nil _ _ _ (fun a _ => rfl),
        List.nil_append,
        filter_map_eq_self _ _ _ (fun a _ => rfl)]
  refine ⟨key cpu_workers, ?_, fun ocw => by rw [key ocw, key cpu_workers]⟩
  rw [key cpu_workers]
  simp

theorem monitorTicks_exit_ge (p : Bool) (e i : Nat) :
    ∀ (clock : List Nat) (evs : List MonitorEvent) (texit : Nat),
      monitorTicks p e i clock = some (evs, texit) → e ≤ texit := by
  intro clock
  induction clock with
  | nil => intro evs texit h; simp [monitorTicks] at h
  | cons t rest ih =>
      intro evs texit h
      simp only [monitorTicks] at h
      by_cases ht : t < e
      · rw [if_pos ht, Option.map_eq_some'] at h
        obtain ⟨⟨evs', t'⟩, hr, hfa⟩ := h
        simp only [Prod.mk.injEq] at hfa
        exact hfa.2 ▸ ih evs' t' hr
      · rw [if_neg ht] at h
        simp only [Option.some.injEq, Prod.mk.injEq] at h
        exact h.2 ▸ Nat.le_of_not_lt ht

/-- Counterexample to C2 as stated: in this run the supervisor's stop
timestamp is 100 + 10 = 110, but the monitor is spawned with (duration,
interval) = (10, 2) rather than with the stop timestamp, and a monitor whose
first own clock reading is 101 still performs a tick at reading 110 — at which
a comparison against the shared stop timestamp would already have exited,
since ¬(110 < 110) — exiting only at reading 111. The monitor therefore
derives an end time of its own instead of comparing against the shared stop
timestamp. -/
theorem monitor_derives_own_end_time :
    ChildSpec.monitorChild 10 2 ∈ spawnPlan ⟨10, 1, 8, false, 16, 2⟩ false false 0 100 ∧
    monitor_loop true 10 2 [101, 110, 111] =
      some ([MonitorEvent.metricsLine 110, MonitorEvent.sleepFor 2], 111) ∧
    ¬(110 < 100 + 10) := by
  refine ⟨by decide, by decide, by decide⟩

/-- C2 as amended: the supervisor computes the absolute stop timestamp
t_start + duration once and passes it by value to every compute and every
accelerator worker, whose loop-exit comparisons are against that shared
value; the monitor, however, is passed (duration, interval) and derives an
end time of its own — its first own clock reading plus the duration — so its
exit reading is bounded below by its own derived end time, not by the shared
stop timestamp. -/
theorem stop_timestamp_shared_with_workers
    (cfg : RunConfig) (hasTorch cudaAvail : Bool) (cudaCount t_start : Nat) :
    (∀ ms stop i,
        ChildSpec.cpuChild ms stop i ∈ spawnPlan cfg hasTorch cudaAvail cudaCount t_start →
        stop = t_start + cfg.duration) ∧
    (∀ ms stop d i,
        ChildSpec.gpuChild ms stop d i ∈ spawnPlan cfg hasTorch cudaAvail cudaCount t_start →
        stop = t_start + cfg.duration) ∧
    ChildSpec.monitorChild cfg.duration cfg.monitor_interval ∈
        spawnPlan cfg hasTorch cudaAvail cudaCount t_start ∧
    (∀ psutilAvail t0 rest evs texit,
        monitor_loop psutilAvail cfg.duration cfg.monitor_interval (t0 :: rest) =
          some (evs, texit) →
        t0 + cfg.duration ≤ texit) := by
  refine ⟨?_, ?_, by simp [spawnPlan], ?_⟩
  · intro ms stop i hmem
    simp only [spawnPlan, List.mem_cons, List.mem_append, List.mem_map] at hmem
    rcases hmem with h | ⟨i', -, heq⟩ | h
    · exact absurd h (by simp)
    · simp only [ChildSpec.cpuChild.injEq] at heq
      exact heq.2.1.symm
    · by_cases hg : effectiveGpu cfg hasTorch cudaAvail = true
      · rw [if_pos hg] at h
        simp only [List.mem_map] at h
        obtain ⟨idx, -, heq⟩ := h
        exact absurd heq (by simp)
      · rw [if_neg hg] at h
        simp at h
  · intro ms stop d i hmem
    simp only [spawnPlan, List.mem_cons, List.mem_append, List.mem_map] at hmem
    rcases hmem with h | ⟨i', -, heq⟩ | h
    · exact absurd h (by simp)
    · exact absurd heq (by simp)
    · by_cases hg : effectiveGpu cfg hasTorch cudaAvail = true
      · rw [if_pos hg] at h
        simp only [List.mem_map] at h
        obtain ⟨idx, -, heq⟩ := h
        simp only [ChildSpec.gpuChild.injEq] at heq
        exact heq.2.1.symm
      · rw [if_neg hg] at h
        simp at h
  · intro psutilAvail t0 rest evs texit h
    exact monitorTicks_exit_ge psutilAvail (t0 + cfg.duration) cfg.monitor_interval
      rest evs texit h

/-- Witness for the amended C2: in the plan for duration 10 started at
t_start 100, the sole compute worker carries stop timestamp 110 = 100 + 10,
and a monitor started at its own reading 101 exits no earlier than 111. -/
theorem stop_timestamp_shared_with_workers_witness :
    (110 : Nat) = 100 + 10 ∧ (101 + 10 : Nat) ≤ 111 :=
  ⟨(stop_timestamp_shared_with_workers ⟨10, 1, 8, false, 16, 2⟩ false false 0 100).1
      8 110 0 (by decide),
   (stop_timestamp_shared_with_workers ⟨10, 1, 8, false, 16, 2⟩ false false 0 100).2.2.2
      true 101 [110, 111]
      [MonitorEvent.metricsLine 110, MonitorEvent.sleepFor 2] 111 (by decide)⟩

/-- A worker process handle as the supervisor sees it at drain time: whether
is_alive() returns True when the terminate pass reaches it, and whether the
process exits within the join timeout. -/
structure Handle where
  alive : Bool
  exitsWithinGrace : Bool
deriving DecidableEq, Repr

/-- Actions the finally block of main() can take while draining, in program
order: a terminate() request to worker handle idx, a join(timeout=grace) wait
on worker handle idx, the terminate() and join(timeout) pair for the monitor,
plus two actions the source never performs but the spec discusses — a
forcible kill() escalation and a per-child abandonment log line — included so
their absence is expressible. -/
inductive DrainAction where
  | terminateReq (idx : Nat)
  | joinWait (idx grace : Nat)
  | terminateMonitorReq
  | joinMonitorWait (grace : Nat)
  | forcibleKill (idx : Nat)
  | abandonLog (idx : Nat)
deriving DecidableEq, Repr

/-- The join timeout of 2.0 seconds used for every cpu and gpu worker. -/
def workerGrace : Nat := 2

/-- The join timeout of 1.0 second used for the monitor. -/
def monitorGrace : Nat := 1

/-- First drain pass of the finally block: for p in cpu_procs + gpu_procs,
if p.is_alive() then p.terminate(). The index threads the position in the
combined handle list. -/
def terminatePhase (i : Nat) : List Handle → List DrainAction
  | [] => []
  | h :: rest =>
      (if h.alive then [DrainAction.terminateReq i] else []) ++
      terminatePhase (i + 1) rest

/-- Second drain pass: for p in cpu_procs + gpu_procs, p.join(timeout=2.0) —
unconditionally, one join attempt per handle. -/
def joinPhase (i : Nat) : List Handle → List DrainAction
  | [] => []
  | _ :: rest => DrainAction.joinWait i workerGrace :: joinPhase (i + 1) rest

/-- Final drain step: if monitor_proc.is_alive(), terminate it and
join(timeout=1.0); a dead monitor receives neither. -/
def monitorPhase (monitorAlive : Bool) : List DrainAction :=
  if monitorAlive then
    [DrainAction.terminateMonitorReq, DrainAction.joinMonitorWait monitorGrace]
  else []

/-- The whole finally block of main(): terminate pass over the combined
worker-handle list, join pass over the same list, then the monitor step. -/
def drain (ws : List Handle) (monitorAlive : Bool) : List DrainAction :=
  terminatePhase 0 ws ++ joinPhase 0 ws ++ monitorPhase monitorAlive

theorem mem_terminatePhase (j : Nat) :
    ∀ (ws : List Handle) (i : Nat),
      DrainAction.terminateReq j ∈ terminatePhase i ws ↔
        ∃ k h, ws[k]? = some h ∧ h.alive = true ∧ j = i + k := by
  intro ws
  induction ws with
  | nil => intro i; simp [terminatePhase]
  | cons hd tl ih =>
      intro i
      simp only [terminatePhase, List.mem_append]
      constructor
      · rintro (hin | hin)
        · by_cases ha : hd.alive
          · rw [if_pos ha] at hin
            simp only [List.mem_singleton, DrainAction.terminateReq.injEq] at hin
            exact ⟨0, hd, by simp, ha, by omega⟩
          · rw [if_neg ha] at hin
            simp at hin
        · obtain ⟨k, h, hk, hal, hj⟩ := (ih (i + 1)).1 hin
          exact ⟨k + 1, h, by simpa using hk, hal, by omega⟩
      · rintro ⟨k, h, hk, hal, hj⟩
        cases k with
        | zero =>
            left
            simp only [List.getElem?_cons_zero, Option.some.injEq] at hk
            subst hk
            rw [if_pos hal]
            simp only [List.mem_singleton, DrainAction.terminateReq.injEq]
            omega
        | succ k =>
            right
            exact (ih (i + 1)).2 ⟨k, h, by simpa using hk, hal, by omega⟩

theorem mem_joinPhase (j g : Nat) :
    ∀ (ws : List Handle) (i : Nat),
      DrainAction.joinWait j g ∈ joinPhase i ws →
        g = workerGrace ∧ i ≤ j ∧ j < i + ws.length := by
  intro ws
  induction ws with
  | nil => intro i h; simp [joinPhase] at h
  | cons hd tl ih =>
      intro i h
      simp only [joinPhase, List.mem_cons, DrainAction.joinWait.injEq] at h
      rcases h with ⟨hj, hg⟩ | h
      · exact ⟨hg, by omega, by simp only [List.length_cons]; omega⟩
      · obtain ⟨hg, hlo, hhi⟩ := ih (i + 1) h
        exact ⟨hg, by omega, by simp only [List.length_cons]; omega⟩

/-- Extract the worker index of a join action. -/
def joinIdx : DrainAction → Option Nat
  | DrainAction.joinWait i _ => some i
  | _ => none

/-- The worker indices receiving join attempts, in drain order. -/
def joinIndices (as : List DrainAction) : List Nat :=
  as.filterMap joinIdx

theorem joinIndices_terminatePhase :
    ∀ (ws : List Handle) (i : Nat),
      List.filterMap joinIdx (terminatePhase i ws) = [] := by
  intro ws
  induction ws with
  | nil => intro i; simp [terminatePhase]
  | cons hd tl ih =>
      intro i
      simp only [terminatePhase, List.filterMap_append]
      rw [ih (i + 1)]
      by_cases ha : hd.alive
      · rw [if_pos ha]; simp [joinIdx]
      · rw [if_neg ha]; simp

theorem joinIndices_joinPhase :
    ∀ (ws : List Handle) (i : Nat),
      List.filterMap joinIdx (joinPhase i ws) = List.range' i ws.length := by
  intro ws
  induction ws with
  | nil => intro i; simp [joinPhase]
  | cons hd tl ih =>
      intro i
      simp only [joinPhase, List.filterMap_cons, joinIdx,
        List.length_cons, List.range'_succ]
      rw [ih (i + 1)]

theorem joinIndices_drain (ws : List Handle) (m : Bool) :
    joinIndices (drain ws m) = List.range ws.length := by
  simp only [drain, joinIndices, List.filterMap_append]
  rw [joinIndices_terminatePhase ws 0, joinIndices_joinPhase ws 0]
  have hm : List.filterMap joinIdx (monitorPhase m) = [] := by
    cases m <;> simp [monitorPhase, joinIdx]
  rw [hm, List.nil_append, List.append_nil, List.range_eq_range']

theorem countP_true_add_countP_false {α : Type} (p : α → Bool) (l : List α) :
    l.countP p + l.countP (fun a => !(p a)) = l.length := by
  induction l with
  | nil => simp
  | cons a l ih =>
      simp only [List.countP_cons, List.length_cons]
      cases hp : p a
      · simp only [hp, Bool.not_false, Bool.false_eq_true, if_false,
          eq_self_iff_true, if_true]
        omega
      · simp only [hp, Bool.not_true, Bool.false_eq_true, if_false,
          eq_self_iff_true, if_true]
        omega

theorem spawnPlan_cpu_count (cfg : RunConfig) (hasTorch cudaAvail : Bool)
    (cudaCount t_start : Nat) :
    (spawnPlan cfg hasTorch cudaAvail cudaCount t_start).countP isCpuChild =
      cfg.cpu_workers := by
  simp only [spawnPlan, List.countP_cons, List.countP_append, isCpuChild,
    Bool.false_eq_true, if_false, Nat.add_zero]
  rw [countP_map_eq_length _ _ _ (fun a _ => rfl), List.length_range]
  by_cases hg : effectiveGpu cfg hasTorch cudaAvail = true
  · rw [if_pos hg, countP_map_eq_zero _ _ _ (fun a _ => rfl)]
    simp
  · rw [if_neg hg]
    simp

theorem terminatePhase_shape :
    ∀ (ws : List Handle) (i : Nat), ∀ a ∈ terminatePhase i ws,
      ∃ k, a = DrainAction.terminateReq k := by
  intro ws
  induction ws with
  | nil => intro i a ha; simp [terminatePhase] at ha
  | cons hd tl ih =>
      intro i a ha
      simp only [terminatePhase, List.mem_append] at ha
      rcases ha with ha | ha
      · by_cases hal : hd.alive
        · rw [if_pos hal] at ha
          simp only [List.mem_singleton] at ha
          exact ⟨i, ha⟩
        · rw [if_neg hal] at ha
          simp at ha
      · exact ih (i + 1) a ha

theorem joinPhase_shape :
    ∀ (ws : List Handle) (i : Nat), ∀ a ∈ joinPhase i ws,
      ∃ k, a = DrainAction.joinWait k workerGrace := by
  intro ws
  induction ws with
  | nil => intro i a ha; simp [joinPhase] at ha
  | cons hd tl ih =>
      intro i a ha
      simp only [joinPhase, List.mem_cons] at ha
      rcases ha with ha | ha
      · exact ⟨i, ha⟩
      · exact ih (i + 1) a ha

theorem monitorPhase_shape :
    ∀ (m : Bool), ∀ a ∈ monitorPhase m,
      a = DrainAction.terminateMonitorReq ∨
      a = DrainAction.joinMonitorWait monitorGrace := by
  intro m a ha
  cases m <;> simp [monitorPhase] at ha
  · rcases ha with ha | ha
    · exact Or.inl ha
    · exact Or.inr ha

/-- Counterexample to C5 as stated: handle 0 below is live at drain time and
does not exit within its grace period, yet the drain sequence contains no
per-child abandonment log for it — the finally block of main() never checks
whether a join attempt timed out and logs nothing about it, so "logged and
abandoned" fails on the logging half. -/
theorem drain_abandons_without_logging :
    Handle.alive ⟨true, false⟩ = true ∧
    Handle.exitsWithinGrace ⟨true, false⟩ = false ∧
    DrainAction.abandonLog 0 ∉ drain [⟨true, false⟩] false := by
  refine ⟨rfl, rfl, by decide⟩

/-- C5 as amended: on draining, the supervisor issues a termination request to
exactly the worker handles that are still live (and to no dead one), attempts
one join with the fixed 2-second grace per worker, and — only when the monitor
is still live — terminates the monitor and joins it with its 1-second grace;
there is no forcible-kill escalation and no per-child abandonment log: a child
that misses its grace period is abandoned silently, and no action of the
drain sequence constitutes a hard failure of the run. -/
theorem drain_graceful_shutdown (ws : List Handle) (m : Bool) :
    (∀ i, DrainAction.terminateReq i ∈ drain ws m ↔
        ∃ h, ws[i]? = some h ∧ h.alive = true) ∧
    (∀ i g, DrainAction.joinWait i g ∈ drain ws m → g = workerGrace) ∧
    ((DrainAction.terminateMonitorReq ∈ drain ws m ∧
      DrainAction.joinMonitorWait monitorGrace ∈ drain ws m) ↔ m = true) ∧
    (∀ i, DrainAction.forcibleKill i ∉ drain ws m) ∧
    (∀ i, DrainAction.abandonLog i ∉ drain ws m) := by
  refine ⟨?_, ?_, ?_, ?_, ?_⟩
  · intro i
    constructor
    · intro hmem
      simp only [drain, List.mem_append] at hmem
      rcases hmem with (hmem | hmem) | hmem
      · obtain ⟨k, h, hk, hal, hik⟩ := (mem_terminatePhase i ws 0).1 hmem
        refine ⟨h, ?_, hal⟩
        have : i = k := by omega
        rw [this]; exact hk
      · obtain ⟨k, hk⟩ := joinPhase_shape ws 0 _ hmem
        exact absurd hk (by simp)
      · rcases monitorPhase_shape m _ hmem with hk | hk <;> exact absurd hk (by simp)
    · rintro ⟨h, hk, hal⟩
      simp only [drain, List.mem_append]
      exact Or.inl (Or.inl ((mem_terminatePhase i ws 0).2 ⟨i, h, hk, hal, by omega⟩))
  · intro i g hmem
    simp only [drain, List.mem_append] at hmem
    rcases hmem with (hmem | hmem) | hmem
    · obtain ⟨k, hk⟩ := terminatePhase_shape ws 0 _ hmem
      exact absurd hk (by simp)
    · exact (mem_joinPhase i g ws 0 hmem).1
    · rcases monitorPhase_shape m _ hmem with hk | hk <;> exact absurd hk (by simp)
  · constructor
    · rintro ⟨hmem, -⟩
      simp only [drain, List.mem_append] at hmem
      rcases hmem with (hmem | hmem) | hmem
      · obtain ⟨k, hk⟩ := terminatePhase_shape ws 0 _ hmem
        exact absurd hk (by simp)
      · obtain ⟨k, hk⟩ := joinPhase_shape ws 0 _ hmem
        exact absurd hk (by simp)
      · cases m with
        | true => rfl
        | false => simp [monitorPhase] at hmem
    · intro hm
      subst hm
      constructor <;> simp [drain, monitorPhase]
  · intro i hmem
    simp only [drain, List.mem_append] at hmem
    rcases hmem with (hmem | hmem) | hmem
    · obtain ⟨k, hk⟩ := terminatePhase_shape ws 0 _ hmem
      exact absurd hk (by simp)
    · obtain ⟨k, hk⟩ := joinPhase_shape ws 0 _ hmem
      exact absurd hk (by simp)
    · rcases monitorPhase_shape m _ hmem with hk | hk <;> exact absurd hk (by simp)
  · intro i hmem
    simp only [drain, List.mem_append] at hmem
    rcases hmem with (hmem | hmem) | hmem
    · obtain ⟨k, hk⟩ := terminatePhase_shape ws 0 _ hmem
      exact absurd hk (by simp)
    · obtain ⟨k, hk⟩ := joinPhase_shape ws 0 _ hmem
      exact absurd hk (by simp)
    · rcases monitorPhase_shape m _ hmem with hk | hk <;> exact absurd hk (by simp)

/-- Witness for the amended C5 on one live handle and a live monitor: its
terminate request is present, and is absent for a run whose only handle is
dead. -/
theorem drain_graceful_shutdown_witness :
    DrainAction.terminateReq 0 ∈ drain [⟨true, false⟩] true ∧
    DrainAction.terminateReq 0 ∉ drain [⟨false, true⟩] true :=
  ⟨((drain_graceful_shutdown [⟨true, false⟩] true).1 0).2 ⟨⟨true, false⟩, rfl, rfl⟩,
   fun hmem => by
     have := ((drain_graceful_shutdown [⟨false, true⟩] true).1 0).1 hmem
     obtain ⟨h, hk, hal⟩ := this
     simp only [List.getElem?_cons_zero, Option.some.injEq] at hk
     subst hk
     exact absurd hal (by decide)⟩

/-- C6: exactly cpu_workers compute-worker handles are created by the spawn
plan, and in the drain sequence over the combined handle list (whose length
is the number of created compute and accelerator handles) the join attempts
target exactly the indices 0, …, length-1 in order — each created handle
receives exactly one join attempt (none dropped, none joined twice), and the
handles splitting into those that exit within the grace period (joined) and
those that do not (abandoned) conserves the count: joined + abandoned =
created. -/
theorem handle_conservation
    (cfg : RunConfig) (hasTorch cudaAvail : Bool) (cudaCount t_start : Nat)
    (ws : List Handle) (m : Bool)
    (hlen : ws.length =
      (spawnPlan cfg hasTorch cudaAvail cudaCount t_start).countP isCpuChild +
      (spawnPlan cfg hasTorch cudaAvail cudaCount t_start).countP isGpuChild) :
    (spawnPlan cfg hasTorch cudaAvail cudaCount t_start).countP isCpuChild =
      cfg.cpu_workers ∧
    joinIndices (drain ws m) = List.range ws.length ∧
    (joinIndices (drain ws m)).Nodup ∧
    ws.countP (fun h => h.exitsWithinGrace) +
      ws.countP (fun h => !h.exitsWithinGrace) = ws.length :=
  ⟨spawnPlan_cpu_count cfg hasTorch cudaAvail cudaCount t_start,
   joinIndices_drain ws m,
   by rw [joinIndices_drain]; exact List.nodup_range _,
   countP_true_add_countP_false _ ws⟩

/-- Witness for C6: two compute workers, no gpu capability, one handle exits
within grace and one does not. -/
theorem handle_conservation_witness :
    (spawnPlan ⟨30, 2, 800, false, 4096, 2⟩ false false 0 100).countP isCpuChild = 2 ∧
    joinIndices (drain [⟨true, true⟩, ⟨true, false⟩] true) = List.range 2 ∧
    (joinIndices (drain [⟨true, true⟩, ⟨true, false⟩] true)).Nodup ∧
    ([⟨true, true⟩, ⟨true, false⟩] : List Handle).countP (fun h => h.exitsWithinGrace) +
      ([⟨true, true⟩, ⟨true, false⟩] : List Handle).countP (fun h => !h.exitsWithinGrace) = 2 :=
  handle_conservation ⟨30, 2, 800, false, 4096, 2⟩ false false 0 100
    [⟨true, true⟩, ⟨true, false⟩] true (by decide)

end WorkloadRunner
